import Mathlib

/- Shallow embedding of the block-index migration core: the queue consumer
   pipeline from consumer.ts (transformItem, checkExists, write, migrator)
   and the partitioned checkpointed scanner from scanner.ts (handler).
   Store interactions are modelled by passing the store response that the
   corresponding AWS call would return; JavaScript numbers are modelled as Int. -/

namespace Consumer

/-- Limit on items per batched existence read, source constant BATCH_READ_LIMIT. -/
def BATCH_READ_LIMIT : Nat := 100

/-- Limit on items per batched write, source constant BATCH_WRITE_LIMIT. -/
def BATCH_WRITE_LIMIT : Nat := 25

/-- One entry of the positions array of a legacy record (offset, length, car). -/
structure CarEntry where
  offset : Int
  length : Int
  car : String
deriving DecidableEq, Repr

/-- Source-schema record BlocksIndex: a multihash and its car positions. -/
structure BlocksIndex where
  multihash : String
  cars : List CarEntry
deriving DecidableEq, Repr

/-- Destination-schema record BlocksCarsPosition. -/
structure BlocksCarsPosition where
  blockmultihash : String
  carpath : String
  length : Int
  offset : Int
deriving DecidableEq, Repr

/-- The string used by the source as the dedup map key for a record: the
template string blockmultihash, then a hash sign, then carpath. -/
def itemKey (i : BlocksCarsPosition) : String :=
  i.blockmultihash ++ "#" ++ i.carpath

/-- Insertion-ordered map update, as a JavaScript Map: setting a key that is
already present replaces the value in place, otherwise the entry is appended. -/
def mapSet [DecidableEq κ] (m : List (κ × α)) (k : κ) (v : α) : List (κ × α) :=
  match m with
  | [] => [(k, v)]
  | e :: rest => if e.1 = k then (k, v) :: rest else e :: mapSet rest k v

/-- An insertion-ordered map holding each item under the key a given function
assigns to it, built by setting the items left to right. -/
def buildMapBy [DecidableEq κ] (f : α → κ) (items : List α) : List (κ × α) :=
  items.foldl (fun m i => mapSet m (f i) i) []

/-- The itemMap built by checkExists and write: each item is set under its
itemKey, so the last occurrence of a key wins while first-occurrence order
is kept. -/
def buildItemMap (items : List BlocksCarsPosition) : List (String × BlocksCarsPosition) :=
  buildMapBy itemKey items

/-- The Keys array of the single BatchGetItem request issued by checkExists:
the blockmultihash and carpath attributes of every deduplicated item. -/
def checkExistsKeys (items : List BlocksCarsPosition) : List (String × String) :=
  (buildItemMap items).map fun e => (e.2.blockmultihash, e.2.carpath)

/-- checkExists, with the store call replaced by its response: the optional
Responses list for the destination table (none models a response without a
Responses object, which the source turns into a thrown error).  On success it
yields, in itemMap order, every deduplicated item whose itemKey is not among
the itemKeys of the returned (unmarshalled) records. -/
def checkExists (items : List BlocksCarsPosition)
    (response : Option (List BlocksCarsPosition)) :
    Except String (List BlocksCarsPosition) :=
  match response with
  | none => Except.error "Error: BatchGetItem returned no Responses object"
  | some found =>
    let foundSet := found.map itemKey
    Except.ok (((buildItemMap items).map Prod.snd).filter fun i =>
      decide (itemKey i ∉ foundSet))

/-- A write request sent to or returned by BatchWriteItem, carrying one
destination record (the marshalled Item of a PutRequest). -/
structure WriteRequest where
  putItem : BlocksCarsPosition
deriving DecidableEq, Repr

/-- The puts array of the single BatchWriteItem request issued by write: one
PutRequest per deduplicated item of the batch. -/
def writePuts (batch : List BlocksCarsPosition) : List WriteRequest :=
  (buildItemMap batch).map fun e => ⟨e.2⟩

/-- write, with the store call replaced by its response: the optional
UnprocessedItems list for the destination table.  The source returns that
list unchanged, defaulting to the empty list when the container is absent. -/
def write (batch : List BlocksCarsPosition) (response : Option (List WriteRequest)) :
    List WriteRequest :=
  response.getD []

/-- transformItem: one destination record per entry of the cars array,
carrying the source multihash and that entry's car, length and offset. -/
def transformItem (item : BlocksIndex) : List BlocksCarsPosition :=
  item.cars.map fun c => ⟨item.multihash, c.car, c.length, c.offset⟩

/-- The transform stage of the pipeline: transformItem applied to every
incoming item, concatenated in order. -/
def transformAll (items : List BlocksIndex) : List BlocksCarsPosition :=
  (items.map transformItem).flatten

/-- One step of it-batch: append the element to the open chunk and flush the
chunk once it reaches the requested size. -/
def chunkStep (n : Nat) (acc : List (List α) × List α) (x : α) :
    List (List α) × List α :=
  if (acc.2 ++ [x]).length = n then (acc.1 ++ [acc.2 ++ [x]], [])
  else (acc.1, acc.2 ++ [x])

/-- it-batch: split a stream into consecutive chunks of the requested size,
with the non-empty remainder as the final chunk. -/
def chunkList (n : Nat) (l : List α) : List (List α) :=
  let acc := l.foldl (chunkStep n) ([], [])
  if acc.2.isEmpty then acc.1 else acc.1 ++ [acc.2]

/-- The existence-check stage of the migrator pipeline: processes the read
batches in order, accumulating the itemCount tally and the surviving records.
The n-th batch's store call is modelled by readResps applied to n and to the
Keys of the issued request. -/
def checkStage (readResps : Nat → List (String × String) → Option (List BlocksCarsPosition)) :
    List (List BlocksCarsPosition) → Nat → Except String (Int × List BlocksCarsPosition)
  | [], _ => Except.ok (0, [])
  | b :: bs, n =>
    match checkExists b (readResps n (checkExistsKeys b)) with
    | Except.error e => Except.error e
    | Except.ok out =>
      match checkStage readResps bs (n + 1) with
      | Except.error e => Except.error e
      | Except.ok (c, rest) => Except.ok ((b.length : Int) + c, out ++ rest)

/-- The write stage of the migrator pipeline: for each write batch, call
write (the n-th call's store response is writeResps applied to n and to the
issued puts), hand any non-empty unprocessed list to the unprocessed-item
handler, and tally writeCount and unprocessedCount.  Returns the two tallies
and, in order, the arguments of every handler invocation. -/
def writeStage (writeResps : Nat → List WriteRequest → Option (List WriteRequest)) :
    List (List BlocksCarsPosition) → Nat → Int × Int × List (List WriteRequest)
  | [], _ => (0, 0, [])
  | b :: bs, n =>
    let unprocessed := write b (writeResps n (writePuts b))
    let rest := writeStage writeResps bs (n + 1)
    ((b.length : Int) - unprocessed.length + rest.1,
     (unprocessed.length : Int) + rest.2.1,
     (if unprocessed.length > 0 then [unprocessed] else []) ++ rest.2.2)

/-- The unprocessed list returned by each write call of the write stage, in
batch order, before the non-empty filter applied by the caller. -/
def unprocessedResults (writeResps : Nat → List WriteRequest → Option (List WriteRequest)) :
    List (List BlocksCarsPosition) → Nat → List (List WriteRequest)
  | [], _ => []
  | b :: bs, n =>
    write b (writeResps n (writePuts b)) :: unprocessedResults writeResps bs (n + 1)

/-- The tallies returned by migrator. -/
structure MigratorResult where
  itemCount : Int
  writeCount : Int
  unprocessedCount : Int
deriving DecidableEq, Repr

/-- migrator: transform all incoming items, batch them by BATCH_READ_LIMIT,
filter each batch through checkExists, batch the survivors by
BATCH_WRITE_LIMIT, and write each batch, forwarding non-empty unprocessed
lists to the handler.  Returns the tallies and the handler invocations, or
the error thrown by checkExists. -/
def migrator (items : List BlocksIndex)
    (readResps : Nat → List (String × String) → Option (List BlocksCarsPosition))
    (writeResps : Nat → List WriteRequest → Option (List WriteRequest)) :
    Except String (MigratorResult × List (List WriteRequest)) :=
  match checkStage readResps (chunkList BATCH_READ_LIMIT (transformAll items)) 0 with
  | Except.error e => Except.error e
  | Except.ok (ic, survivors) =>
    let ws := writeStage writeResps (chunkList BATCH_WRITE_LIMIT survivors) 0
    Except.ok (⟨ic, ws.1, ws.2.1⟩, ws.2.2)

/-- The list of records submitted to the write stage across one message: the
survivors of the existence-check stage. -/
def survivorsOf (items : List BlocksIndex)
    (readResps : Nat → List (String × String) → Option (List BlocksCarsPosition)) :
    Except String (List BlocksCarsPosition) :=
  match checkStage readResps (chunkList BATCH_READ_LIMIT (transformAll items)) 0 with
  | Except.error e => Except.error e
  | Except.ok (_, survivors) => Except.ok survivors

/-- Primary key of a destination record as the spec words it: the pair of
blockmultihash and carpath. -/
def pairKey (i : BlocksCarsPosition) : String × String :=
  (i.blockmultihash, i.carpath)

/-- The string encoding of a primary-key pair used by the source map keys:
first component, hash sign, second component.  itemKey is this encoding of
pairKey. -/
def encodeKey (p : String × String) : String :=
  p.1 ++ "#" ++ p.2

/-- The deduplication step as the spec words it: deduplicate the candidates
by primary key, last occurrence winning, yielded in first-occurrence input
order.  Stated from the spec text, for comparison with the source functions. -/
def specDedupByPrimaryKey (items : List BlocksCarsPosition) : List BlocksCarsPosition :=
  (buildMapBy pairKey items).map Prod.snd

/-- The output the spec describes for the existence filter on a response with
a results list: the deduplicated candidates whose primary key is not among
the keys of the response. -/
def specCheckExists (items : List BlocksCarsPosition) (found : List BlocksCarsPosition) :
    List BlocksCarsPosition :=
  (specDedupByPrimaryKey items).filter fun i => decide (pairKey i ∉ found.map pairKey)

end Consumer

namespace Scanner

/-- Threshold of remaining invocation time below which the scanner triggers a
continuation, source constant MIN_REMAINING_TIME_MS. -/
def MIN_REMAINING_TIME_MS : Int := 15 * 60 * 1000 - 5000

/-- The Progress value stored under the partition's progress key:
recordsScanned tally, the optional continuation key, and the stop flag. -/
structure Progress where
  recordCount : Int
  lastEvaluated : Option String
  stop : Bool
deriving DecidableEq, Repr

/-- One page returned by a Scan call: the (possibly empty) list of records,
already unmarshalled and modelled opaquely, and the optional continuation
key (absent exactly when the partition is exhausted). -/
structure Page where
  items : List String
  lastEvaluatedKey : Option String
deriving DecidableEq, Repr

/-- The externally visible effects of one scanner invocation, in program
order: a page fetch issued with the given start key, a queue send of a
batch of records, a checkpoint write of a Progress value, and the
asynchronous self-invocation. -/
inductive Event where
  | fetch (startKey : Option String)
  | send (records : List String)
  | store (p : Progress)
  | invoke
deriving DecidableEq, Repr

/-- The environment of one scanner invocation: the value stored under the
progress key at entry, the global stop parameter as polled (indexed by poll
number), the page returned by the n-th Scan call, and the remaining time
observed at the n-th budget check. -/
structure ScanEnv where
  stored : Option Progress
  stopSignal : Nat → Bool
  page : Nat → Page
  msRemaining : Nat → Int

/-- getProgress: an absent parameter yields the fresh cursor with zero
records scanned, no continuation key and the stop flag cleared. -/
def getProgress (stored : Option Progress) : Progress :=
  stored.getD ⟨0, none, false⟩

/-- The value returned by the scanner handler: the partition parameters
together with the progress fields; the stop field is present exactly on the
return paths that spread a whole Progress value into the result. -/
structure HandlerResult where
  totalSegments : Nat
  segment : Nat
  recordCount : Int
  lastEvaluated : Option String
  stop : Option Bool
deriving DecidableEq, Repr

/-- The scan loop of the handler, one fuel unit per iteration.  Each
iteration fetches the n-th page, sends its records when non-empty, stores
the updated progress, then either finishes (partition exhausted), returns on
the polled global stop signal, triggers a continuation when the remaining
time is below the threshold, or loops.  Exhausted fuel models an unfinished
loop and returns the normally shaped result. -/
def scanLoop (env : ScanEnv) (tS sg : Nat) :
    Nat → Nat → Int → Option String → List Event × HandlerResult
  | 0, _, recordCount, lastEval => ([], ⟨tS, sg, recordCount, lastEval, none⟩)
  | fuel + 1, n, recordCount, lastEval =>
    let page := env.page n
    let sendEvents : List Event :=
      if page.items.isEmpty then [] else [Event.send page.items]
    let newCount : Int := recordCount + page.items.length
    let newLast := page.lastEvaluatedKey
    let progress : Progress := ⟨newCount, newLast, newLast.isNone⟩
    if newLast.isNone then
      (Event.fetch lastEval :: sendEvents ++ [Event.store progress],
       ⟨tS, sg, newCount, newLast, none⟩)
    else if env.stopSignal (n + 1) then
      (Event.fetch lastEval :: sendEvents ++ [Event.store progress],
       ⟨tS, sg, progress.recordCount, progress.lastEvaluated, some progress.stop⟩)
    else if env.msRemaining n < MIN_REMAINING_TIME_MS then
      (Event.fetch lastEval :: sendEvents ++ [Event.store progress, Event.invoke],
       ⟨tS, sg, newCount, newLast, none⟩)
    else
      let rest := scanLoop env tS sg fuel (n + 1) newCount newLast
      (Event.fetch lastEval :: sendEvents ++ Event.store progress :: rest.1, rest.2)

/-- The scanner handler: load the previous progress; if its stop flag is set,
or the global stop parameter is present on the first poll, return the
previous progress with the partition parameters and perform no effect;
otherwise run the scan loop from the previous progress. -/
def handler (env : ScanEnv) (tS sg : Nat) (fuel : Nat) : List Event × HandlerResult :=
  let prev := getProgress env.stored
  if prev.stop then
    ([], ⟨tS, sg, prev.recordCount, prev.lastEvaluated, some prev.stop⟩)
  else if env.stopSignal 0 then
    ([], ⟨tS, sg, prev.recordCount, prev.lastEvaluated, some prev.stop⟩)
  else
    scanLoop env tS sg fuel 0 prev.recordCount prev.lastEvaluated

/-- Recognizer for checkpoint-write events. -/
def isStoreEvent : Event → Bool
  | Event.store _ => true
  | _ => false

/-- Recognizer for page-fetch events. -/
def isFetchEvent : Event → Bool
  | Event.fetch _ => true
  | _ => false

/-- Traces producible by the scan loop when the next fetch is the n-th page:
a possibly empty sequence of iteration segments, the segment of the n-th
iteration being a fetch, then the send of exactly the n-th page's records
when that page is non-empty, then the store of a progress value carrying the
n-th page's continuation key; a final segment may be followed by the single
continuation invocation. -/
inductive SegTrace (env : ScanEnv) : Nat → List Event → Prop
  | nil (n : Nat) : SegTrace env n []
  | invokeOnly (n : Nat) : SegTrace env n [Event.invoke]
  | cons (n : Nat) (k : Option String) (p : Progress) (rest : List Event) :
      p.lastEvaluated = (env.page n).lastEvaluatedKey →
      SegTrace env (n + 1) rest →
      SegTrace env n (Event.fetch k ::
        (if (env.page n).items.isEmpty then [] else [Event.send (env.page n).items]) ++
        Event.store p :: rest)

end Scanner

namespace Consumer

theorem mapSet_mem [DecidableEq κ] {m : List (κ × α)} {k : κ} {v : α} :
    ∀ e ∈ mapSet m k v, e = (k, v) ∨ e ∈ m := by
  induction m with
  | nil =>
    intro e he
    simp only [mapSet, List.mem_singleton] at he
    exact Or.inl he
  | cons a rest ih =>
    intro e he
    by_cases h : a.1 = k
    · simp only [mapSet, if_pos h] at he
      rcases List.mem_cons.mp he with h1 | h1
      · exact Or.inl h1
      · exact Or.inr (List.mem_cons_of_mem _ h1)
    · simp only [mapSet, if_neg h] at he
      rcases List.mem_cons.mp he with h1 | h1
      · exact Or.inr (h1 ▸ List.mem_cons_self a rest)
      · rcases ih e h1 with h2 | h2
        · exact Or.inl h2
        · exact Or.inr (List.mem_cons_of_mem _ h2)

theorem mapSet_pairwise [DecidableEq κ] {m : List (κ × α)} {k : κ} {v : α}
    (h : m.Pairwise fun a b => a.1 ≠ b.1) :
    (mapSet m k v).Pairwise fun a b => a.1 ≠ b.1 := by
  induction m with
  | nil => simp [mapSet]
  | cons a rest ih =>
    rcases List.pairwise_cons.mp h with ⟨ha, hrest⟩
    by_cases hk : a.1 = k
    · simp only [mapSet, if_pos hk]
      refine List.pairwise_cons.mpr ⟨?_, hrest⟩
      intro b hb
      exact hk ▸ ha b hb
    · simp only [mapSet, if_neg hk]
      refine List.pairwise_cons.mpr ⟨?_, ih hrest⟩
      intro b hb
      rcases mapSet_mem b hb with h1 | h1
      · simpa [h1] using hk
      · exact ha b h1

theorem foldl_mapSet_inv [DecidableEq κ] (f : α → κ) :
    ∀ (items : List α) (m₀ : List (κ × α)),
      (m₀.Pairwise fun a b => a.1 ≠ b.1) → (∀ e ∈ m₀, e.1 = f e.2) →
      ((items.foldl (fun m i => mapSet m (f i) i) m₀).Pairwise fun a b => a.1 ≠ b.1)
      ∧ (∀ e ∈ items.foldl (fun m i => mapSet m (f i) i) m₀, e.1 = f e.2)
      ∧ (∀ e ∈ items.foldl (fun m i => mapSet m (f i) i) m₀, e.2 ∈ items ∨ e ∈ m₀) := by
  intro items
  induction items with
  | nil => exact fun m₀ h1 h2 => ⟨h1, h2, fun e he => Or.inr he⟩
  | cons i rest ih =>
    intro m₀ h1 h2
    have h1' : (mapSet m₀ (f i) i).Pairwise fun a b => a.1 ≠ b.1 := mapSet_pairwise h1
    have h2' : ∀ e ∈ mapSet m₀ (f i) i, e.1 = f e.2 := by
      intro e he
      rcases mapSet_mem e he with h | h
      · simp [h]
      · exact h2 e h
    rcases ih (mapSet m₀ (f i) i) h1' h2' with ⟨ha, hb, hc⟩
    refine ⟨ha, hb, ?_⟩
    intro e he
    rcases hc e he with h | h
    · exact Or.inl (List.mem_cons_of_mem _ h)
    · rcases mapSet_mem e h with h3 | h3
      · exact Or.inl (by simp [h3])
      · exact Or.inr h3

theorem buildMapBy_pairwise [DecidableEq κ] (f : α → κ) (items : List α) :
    (buildMapBy f items).Pairwise fun a b => a.1 ≠ b.1 :=
  (foldl_mapSet_inv f items [] (by simp) (by simp)).1

theorem buildMapBy_keyed [DecidableEq κ] (f : α → κ) (items : List α) :
    ∀ e ∈ buildMapBy f items, e.1 = f e.2 :=
  (foldl_mapSet_inv f items [] (by simp) (by simp)).2.1

theorem buildMapBy_val_mem [DecidableEq κ] (f : α → κ) (items : List α) :
    ∀ e ∈ buildMapBy f items, e.2 ∈ items := by
  intro e he
  rcases (foldl_mapSet_inv f items [] (by simp) (by simp)).2.2 e he with h | h
  · exact h
  · simp at h

theorem buildMapBy_snd_pairwise [DecidableEq κ] (f : α → κ) (items : List α) :
    ((buildMapBy f items).map Prod.snd).Pairwise fun a b => f a ≠ f b := by
  rw [List.pairwise_map]
  refine List.Pairwise.imp_of_mem ?_ (buildMapBy_pairwise f items)
  intro a b ha hb hne
  have hka := buildMapBy_keyed f items a ha
  have hkb := buildMapBy_keyed f items b hb
  rw [hka, hkb] at hne
  exact hne

end Consumer

open Consumer Scanner

/-- C5: transformItem yields one destination record per entry of the source
positions list, the i-th output carrying the source key as blockmultihash
and the i-th position's offset, length and car as carpath, in order; a
record with zero positions yields zero outputs. -/
theorem C5_transformItem_shape (item : BlocksIndex) :
    (transformItem item).length = item.cars.length ∧
    ∀ (i : Nat) (h : i < item.cars.length),
      (transformItem item)[i]? =
        some ⟨item.multihash, (item.cars.get ⟨i, h⟩).car,
          (item.cars.get ⟨i, h⟩).length, (item.cars.get ⟨i, h⟩).offset⟩ := by
  constructor
  · simp [transformItem]
  · intro i h
    simp [transformItem, List.getElem?_map, List.getElem?_eq_getElem h]

/-- Witness for C5 at a concrete record with two positions. -/
theorem C5_transformItem_shape_witness :
    (transformItem ⟨"hash", [⟨0, 10, "A"⟩, ⟨20, 20, "B"⟩]⟩)[1]? =
      some ⟨"hash", "B", 20, 20⟩ :=
  (C5_transformItem_shape ⟨"hash", [⟨0, 10, "A"⟩, ⟨20, 20, "B"⟩]⟩).2 1 (by decide)

/-- C6: when the existence-check response has no Responses container for the
destination table, checkExists throws and yields no record from the batch. -/
theorem C6_missing_responses_fatal (items : List BlocksCarsPosition) :
    checkExists items none =
      Except.error "Error: BatchGetItem returned no Responses object" :=
  rfl

/-- C10: a write response with no UnprocessedItems container for the
destination table makes write return the empty list, a fully successful
batch, while the matching absence in the existence check is an error. -/
theorem C10_missing_unprocessed_ok :
    (∀ batch : List BlocksCarsPosition, write batch none = []) ∧
    (∀ items : List BlocksCarsPosition,
      ∃ e, checkExists items none = Except.error e) :=
  ⟨fun _ => rfl, fun _ => ⟨"Error: BatchGetItem returned no Responses object", rfl⟩⟩

/-- If two destination records agree on the primary-key pair they agree on
the string key used by the source. -/
theorem itemKey_congr {a b : Consumer.BlocksCarsPosition}
    (h : pairKey a = pairKey b) : itemKey a = itemKey b := by
  unfold pairKey at h
  unfold itemKey
  rw [(Prod.mk.injEq _ _ _ _ ▸ h : a.blockmultihash = b.blockmultihash ∧ a.carpath = b.carpath).1,
    (Prod.mk.injEq _ _ _ _ ▸ h : a.blockmultihash = b.blockmultihash ∧ a.carpath = b.carpath).2]

/-- C3: checkExists never yields two records with equal primary key from one
batch, and never yields a record whose primary key appears among the keys of
the existence-check response. -/
theorem C3_checkExists_unique_absent (items found out : List Consumer.BlocksCarsPosition)
    (h : checkExists items (some found) = Except.ok out) :
    (out.Pairwise fun a b => pairKey a ≠ pairKey b) ∧
    ∀ i ∈ out, pairKey i ∉ found.map pairKey := by
  have hout : ((buildItemMap items).map Prod.snd).filter
      (fun i => decide (itemKey i ∉ found.map itemKey)) = out := by
    simpa [checkExists] using h
  constructor
  · rw [← hout]
    refine List.Pairwise.sublist (List.filter_sublist _) ?_
    refine List.Pairwise.imp ?_ (buildMapBy_snd_pairwise itemKey items)
    intro a b hne hpair
    exact hne (itemKey_congr hpair)
  · intro i hi hmem
    rw [← hout] at hi
    have hp := (List.mem_filter.mp hi).2
    have hnot : itemKey i ∉ found.map itemKey := of_decide_eq_true hp
    rcases List.mem_map.mp hmem with ⟨f, hf, hfk⟩
    exact hnot (List.mem_map.mpr ⟨f, hf, itemKey_congr hfk⟩)

/-- Witness for C3 on a batch with a duplicated key and a response that
already contains one of the candidates. -/
theorem C3_checkExists_unique_absent_witness :
    (([⟨"h", "x", 9, 9⟩] : List Consumer.BlocksCarsPosition).Pairwise
      fun a b => pairKey a ≠ pairKey b) ∧
    ∀ i ∈ ([⟨"h", "x", 9, 9⟩] : List Consumer.BlocksCarsPosition),
      pairKey i ∉ ([⟨"g", "y", 0, 0⟩] : List Consumer.BlocksCarsPosition).map pairKey :=
  C3_checkExists_unique_absent
    [⟨"h", "x", 1, 1⟩, ⟨"g", "y", 2, 2⟩, ⟨"h", "x", 9, 9⟩]
    [⟨"g", "y", 0, 0⟩] [⟨"h", "x", 9, 9⟩] rfl

/-- The write stage's two tallies sum to the total size of the submitted
write batches. -/
theorem writeStage_tally
    (writeResps : Nat → List WriteRequest → Option (List WriteRequest)) :
    ∀ (bs : List (List Consumer.BlocksCarsPosition)) (n : Nat),
      (writeStage writeResps bs n).1 + (writeStage writeResps bs n).2.1 =
        (bs.map fun b => (b.length : Int)).sum := by
  intro bs
  induction bs with
  | nil => intro n; simp [writeStage]
  | cons b rest ih =>
    intro n
    have h := ih (n + 1)
    simp only [writeStage, List.map_cons, List.sum_cons]
    linarith

/-- Folding the it-batch step keeps the flattened chunks plus the open chunk
equal to the consumed input. -/
theorem foldl_chunkStep_flatten (n : Nat) :
    ∀ (l : List α) (acc : List (List α) × List α),
      (l.foldl (chunkStep n) acc).1.flatten ++ (l.foldl (chunkStep n) acc).2 =
        acc.1.flatten ++ acc.2 ++ l := by
  intro l
  induction l with
  | nil => intro acc; simp
  | cons x xs ih =>
    intro acc
    rw [List.foldl_cons, ih (chunkStep n acc x)]
    unfold chunkStep
    split_ifs with h
    · simp
    · simp

/-- Flattening the chunks of it-batch recovers the input stream. -/
theorem chunkList_flatten (n : Nat) (l : List α) : (chunkList n l).flatten = l := by
  have h := foldl_chunkStep_flatten n l ([], [])
  simp only [List.flatten_nil, List.nil_append] at h
  by_cases he : (l.foldl (chunkStep n) ([], [])).2.isEmpty
  · simp only [chunkList, if_pos he]
    rwa [List.isEmpty_iff.mp he, List.append_nil] at h
  · simp only [chunkList, if_neg he]
    simpa using h

/-- The total length of the it-batch chunks equals the input length. -/
theorem chunkList_length_sum (n : Nat) (l : List α) :
    ((chunkList n l).map fun b => (b.length : Int)).sum = (l.length : Int) := by
  have h1 : ((chunkList n l).map List.length).sum = l.length := by
    rw [← List.length_flatten, chunkList_flatten]
  have h2 : ∀ L : List (List α),
      (L.map fun b => (b.length : Int)).sum = ((L.map List.length).sum : Int) := by
    intro L
    induction L with
    | nil => simp
    | cons b bs ih => simp [ih]
  rw [h2, h1]

/-- C1: after a completed run of the migrator, writeCount plus
unprocessedCount equals the number of records submitted to the write stage
across the message, and for each submitted batch the two increments sum to
the batch size whenever the store reports an unprocessed subset of the
issued puts. -/
theorem C1_writer_tally :
    (∀ (items : List BlocksIndex)
        (readResps : Nat → List (String × String) → Option (List Consumer.BlocksCarsPosition))
        (writeResps : Nat → List WriteRequest → Option (List WriteRequest))
        (r : MigratorResult) (calls : List (List WriteRequest))
        (s : List Consumer.BlocksCarsPosition),
        migrator items readResps writeResps = Except.ok (r, calls) →
        survivorsOf items readResps = Except.ok s →
        r.writeCount + r.unprocessedCount = (s.length : Int)) ∧
    (∀ (b : List Consumer.BlocksCarsPosition) (resp : Option (List WriteRequest)),
        (∀ w ∈ write b resp, w ∈ writePuts b) →
        ((b.length : Int) - (write b resp).length) + (write b resp).length =
          (b.length : Int)) := by
  constructor
  · intro items readResps writeResps r calls s hmig hsurv
    cases hcs : checkStage readResps (chunkList BATCH_READ_LIMIT (transformAll items)) 0 with
    | error e =>
      rw [migrator, hcs] at hmig
      exact absurd hmig (by simp)
    | ok p =>
      rw [survivorsOf, hcs] at hsurv
      have hs : p.2 = s := by simpa using hsurv
      rw [migrator, hcs] at hmig
      have hr : r = ⟨p.1, (writeStage writeResps (chunkList BATCH_WRITE_LIMIT p.2) 0).1,
          (writeStage writeResps (chunkList BATCH_WRITE_LIMIT p.2) 0).2.1⟩ := by
        have := (Except.ok.injEq _ _ ▸ hmig : (⟨p.1, _, _⟩, _) = ((r, calls) :
          MigratorResult × List (List WriteRequest)))
        exact (Prod.mk.injEq _ _ _ _ ▸ this).1.symm
      rw [hr]
      show (writeStage writeResps (chunkList BATCH_WRITE_LIMIT p.2) 0).1 +
        (writeStage writeResps (chunkList BATCH_WRITE_LIMIT p.2) 0).2.1 = (s.length : Int)
      rw [writeStage_tally writeResps (chunkList BATCH_WRITE_LIMIT p.2) 0,
        chunkList_length_sum, hs]
  · intro b resp _
    exact sub_add_cancel _ _

/-- Witness for C1: the migration of one record with two positions against
an empty destination store tallies two writes and no unprocessed items, and
the per-batch identity holds on an empty batch. -/
theorem C1_writer_tally_witness :
    ((⟨2, 2, 0⟩ : MigratorResult).writeCount + (⟨2, 2, 0⟩ : MigratorResult).unprocessedCount
      = (([⟨"hash", "A", 10, 0⟩, ⟨"hash", "B", 20, 20⟩] :
          List Consumer.BlocksCarsPosition).length : Int)) ∧
    (((([] : List Consumer.BlocksCarsPosition).length : Int) - (write [] none).length)
        + (write [] none).length = (([] : List Consumer.BlocksCarsPosition).length : Int)) :=
  ⟨C1_writer_tally.1 [⟨"hash", [⟨0, 10, "A"⟩, ⟨20, 20, "B"⟩]⟩]
      (fun _ _ => some []) (fun _ _ => some []) ⟨2, 2, 0⟩ []
      [⟨"hash", "A", 10, 0⟩, ⟨"hash", "B", 20, 20⟩] rfl rfl,
   C1_writer_tally.2 [] none (by intro w hw; simpa [write] using hw)⟩

/-- Splitting a character list at a separator character absent from both
prefixes is unambiguous. -/
theorem sep_append_eq {x : Char} {a b c d : List Char} (ha : x ∉ a) (hc : x ∉ c) :
    a ++ x :: b = c ++ x :: d ↔ a = c ∧ b = d := by
  constructor
  · intro h
    induction a generalizing c with
    | nil =>
      cases c with
      | nil => simpa using h
      | cons y c' =>
        simp only [List.nil_append, List.cons_append, List.cons.injEq] at h
        exact absurd (h.1 ▸ List.mem_cons_self y c') hc
    | cons y a' ih =>
      cases c with
      | nil =>
        simp only [List.cons_append, List.nil_append, List.cons.injEq] at h
        exact absurd (h.1 ▸ List.mem_cons_self y a') ha
      | cons z c' =>
        simp only [List.cons_append, List.cons.injEq] at h
        have ha' : x ∉ a' := fun hx => ha (List.mem_cons_of_mem _ hx)
        have hc' : x ∉ c' := fun hx => hc (List.mem_cons_of_mem _ hx)
        obtain ⟨h1, h2⟩ := ih ha' hc' h.2
        exact ⟨h.1 ▸ h1 ▸ rfl, h2⟩
  · rintro ⟨rfl, rfl⟩
    rfl

/-- The characters of an encoded key are the first component's characters,
the separator, then the second component's characters. -/
theorem encodeKey_data (p : String × String) :
    (encodeKey p).data = p.1.data ++ '#' :: p.2.data := by
  have h : ("#" : String).data = ['#'] := rfl
  simp [encodeKey, String.data_append, h]

/-- On pairs whose first component is free of the separator character the
key encoding is injective. -/
theorem encodeKey_eq_iff {p q : String × String}
    (hp : '#' ∉ p.1.data) (hq : '#' ∉ q.1.data) :
    encodeKey p = encodeKey q ↔ p = q := by
  constructor
  · intro h
    have hd := congrArg String.data h
    rw [encodeKey_data, encodeKey_data] at hd
    obtain ⟨h1, h2⟩ := (sep_append_eq hp hq).mp hd
    exact Prod.ext (String.ext h1) (String.ext h2)
  · intro h
    rw [h]

/-- On records whose blockmultihash is free of the separator character,
equal string keys mean equal primary keys. -/
theorem itemKey_eq_iff {i j : Consumer.BlocksCarsPosition}
    (hi : '#' ∉ i.blockmultihash.data) (hj : '#' ∉ j.blockmultihash.data) :
    itemKey i = itemKey j ↔ pairKey i = pairKey j := by
  have h : encodeKey (pairKey i) = encodeKey (pairKey j) ↔ pairKey i = pairKey j :=
    encodeKey_eq_iff hi hj
  exact h

/-- One map update commutes with the key encoding when every first key
component in sight is free of the separator character. -/
theorem mapSet_encode {mP : List ((String × String) × Consumer.BlocksCarsPosition)}
    {i : Consumer.BlocksCarsPosition}
    (hfree : ∀ e ∈ mP, '#' ∉ e.1.1.data) (hi : '#' ∉ i.blockmultihash.data) :
    mapSet (mP.map fun e => (encodeKey e.1, e.2)) (itemKey i) i =
      (mapSet mP (pairKey i) i).map fun e => (encodeKey e.1, e.2) := by
  induction mP with
  | nil => rfl
  | cons e rest ih =>
    have hfe : '#' ∉ e.1.1.data := hfree e (List.mem_cons_self e rest)
    have hfr : ∀ x ∈ rest, '#' ∉ x.1.1.data :=
      fun x hx => hfree x (List.mem_cons_of_mem _ hx)
    by_cases hk : e.1 = pairKey i
    · have henc : encodeKey e.1 = itemKey i := by rw [hk]; rfl
      simp only [List.map_cons, mapSet, if_pos henc, if_pos hk]
      rfl
    · have henc : ¬ encodeKey e.1 = itemKey i :=
        fun h => hk ((encodeKey_eq_iff hfe hi).mp h)
      simp only [List.map_cons, mapSet, if_neg henc, if_neg hk, List.map_cons]
      rw [ih hfr]

/-- Folding map updates commutes with the key encoding on separator-free
inputs. -/
theorem foldl_mapSet_encode :
    ∀ (items : List Consumer.BlocksCarsPosition),
      (∀ i ∈ items, '#' ∉ i.blockmultihash.data) →
      ∀ mP : List ((String × String) × Consumer.BlocksCarsPosition),
        (∀ e ∈ mP, '#' ∉ e.1.1.data) →
        items.foldl (fun m i => mapSet m (itemKey i) i)
            (mP.map fun e => (encodeKey e.1, e.2)) =
          (items.foldl (fun m i => mapSet m (pairKey i) i) mP).map
            fun e => (encodeKey e.1, e.2) := by
  intro items
  induction items with
  | nil => intro _ mP _; rfl
  | cons i rest ih =>
    intro h mP hmP
    have hi : '#' ∉ i.blockmultihash.data := h i (List.mem_cons_self i rest)
    have hr : ∀ x ∈ rest, '#' ∉ x.blockmultihash.data :=
      fun x hx => h x (List.mem_cons_of_mem _ hx)
    simp only [List.foldl_cons]
    rw [mapSet_encode hmP hi]
    refine ih hr (mapSet mP (pairKey i) i) ?_
    intro e he
    rcases mapSet_mem e he with h1 | h1
    · rw [h1]
      exact hi
    · exact hmP e h1

/-- On a separator-free batch the source's string-keyed item map is the
primary-key-keyed map with encoded keys. -/
theorem buildItemMap_spec {items : List Consumer.BlocksCarsPosition}
    (h : ∀ i ∈ items, '#' ∉ i.blockmultihash.data) :
    buildItemMap items = (buildMapBy pairKey items).map fun e => (encodeKey e.1, e.2) := by
  have h0 := foldl_mapSet_encode items h [] (by simp)
  simpa [buildItemMap, buildMapBy] using h0

/-- On a separator-free batch the deduplicated values of the source's item
map are exactly the spec's deduplication by primary key. -/
theorem dedupValues_spec {items : List Consumer.BlocksCarsPosition}
    (h : ∀ i ∈ items, '#' ∉ i.blockmultihash.data) :
    (buildItemMap items).map Prod.snd = specDedupByPrimaryKey items := by
  rw [buildItemMap_spec h, specDedupByPrimaryKey, List.map_map]
  rfl

/-- Counterexample to C2 as stated: two candidates with distinct primary
keys whose blockmultihash values contain the separator character collide in
the source's string-keyed dedup map, so checkExists drops one of them while
the deduplication by primary key keeps both, and the issued Keys likewise
differ from the deduplicated primary keys. -/
theorem C2_checkExists_dedup_cex :
    (checkExists [⟨"a#b", "c", 0, 0⟩, ⟨"a", "b#c", 0, 0⟩] (some []) ≠
      Except.ok (specCheckExists [⟨"a#b", "c", 0, 0⟩, ⟨"a", "b#c", 0, 0⟩] [])) ∧
    checkExistsKeys [⟨"a#b", "c", 0, 0⟩, ⟨"a", "b#c", 0, 0⟩] ≠
      (specDedupByPrimaryKey [⟨"a#b", "c", 0, 0⟩, ⟨"a", "b#c", 0, 0⟩]).map pairKey := by
  constructor
  · intro h
    have h2 : ([⟨"a", "b#c", 0, 0⟩] : List Consumer.BlocksCarsPosition) =
        [⟨"a#b", "c", 0, 0⟩, ⟨"a", "b#c", 0, 0⟩] := Except.ok.inj h
    exact absurd h2 (by decide)
  · decide

/-- C2 amended: restricted to batches and responses in which no
blockmultihash contains the separator character of the key encoding,
checkExists yields exactly the candidates deduplicated by primary key, last
occurrence winning, in first-occurrence input order, restricted to those
whose primary key is not among the response keys, and the single existence
query is issued over exactly the deduplicated keys. -/
theorem C2_checkExists_dedup (items found : List Consumer.BlocksCarsPosition)
    (hitems : ∀ i ∈ items, '#' ∉ i.blockmultihash.data)
    (hfound : ∀ f ∈ found, '#' ∉ f.blockmultihash.data) :
    checkExists items (some found) = Except.ok (specCheckExists items found) ∧
    checkExistsKeys items = (specDedupByPrimaryKey items).map pairKey := by
  constructor
  · simp only [checkExists, specCheckExists]
    rw [dedupValues_spec hitems]
    refine congrArg Except.ok (List.filter_congr ?_)
    intro i hi
    have himem : i ∈ items := by
      rcases List.mem_map.mp ((dedupValues_spec hitems).symm ▸ hi) with ⟨e, he, hei⟩
      exact hei ▸ buildMapBy_val_mem itemKey items e he
    have hik : '#' ∉ i.blockmultihash.data := hitems i himem
    refine decide_eq_decide.mpr (not_congr ?_)
    constructor
    · intro hmem
      rcases List.mem_map.mp hmem with ⟨f, hf, hkey⟩
      exact List.mem_map.mpr ⟨f, hf, (itemKey_eq_iff (hfound f hf) hik).mp hkey⟩
    · intro hmem
      rcases List.mem_map.mp hmem with ⟨f, hf, hkey⟩
      exact List.mem_map.mpr ⟨f, hf, itemKey_congr hkey⟩
  · rw [checkExistsKeys, buildItemMap_spec hitems, List.map_map,
      specDedupByPrimaryKey, List.map_map]
    rfl

/-- Witness for amended C2 on a separator-free batch with a duplicate key
and a response containing one candidate. -/
theorem C2_checkExists_dedup_witness :
    checkExists [⟨"h", "x", 1, 1⟩, ⟨"g", "y", 2, 2⟩, ⟨"h", "x", 9, 9⟩]
        (some [⟨"g", "y", 0, 0⟩]) =
      Except.ok (specCheckExists [⟨"h", "x", 1, 1⟩, ⟨"g", "y", 2, 2⟩, ⟨"h", "x", 9, 9⟩]
        [⟨"g", "y", 0, 0⟩]) ∧
    checkExistsKeys [⟨"h", "x", 1, 1⟩, ⟨"g", "y", 2, 2⟩, ⟨"h", "x", 9, 9⟩] =
      (specDedupByPrimaryKey [⟨"h", "x", 1, 1⟩, ⟨"g", "y", 2, 2⟩, ⟨"h", "x", 9, 9⟩]).map
        pairKey :=
  C2_checkExists_dedup
    [⟨"h", "x", 1, 1⟩, ⟨"g", "y", 2, 2⟩, ⟨"h", "x", 9, 9⟩]
    [⟨"g", "y", 0, 0⟩] (by decide) (by decide)

/-- Counterexample to C4 as stated: the sole deduplicated candidate's
primary key is absent from the response keys, yet checkExists yields
nothing, because the candidate's encoded key collides with the encoded key
of a response record containing the separator character. -/
theorem C4_omitted_key_yielded_cex :
    (⟨"a#b", "c", 0, 0⟩ : Consumer.BlocksCarsPosition) ∈
      (buildItemMap [⟨"a#b", "c", 0, 0⟩]).map Prod.snd ∧
    pairKey ⟨"a#b", "c", 0, 0⟩ ∉
      ([⟨"a", "b#c", 5, 5⟩] : List Consumer.BlocksCarsPosition).map pairKey ∧
    checkExists [⟨"a#b", "c", 0, 0⟩] (some [⟨"a", "b#c", 5, 5⟩]) =
      Except.ok [] :=
  ⟨by decide, by decide, rfl⟩

/-- C4 amended: restricted to batches and responses in which no
blockmultihash contains the separator character, every deduplicated
candidate whose primary key is omitted from the existence-check response is
treated as not found and yielded, so an omission can only cause an extra
write, never a skipped record. -/
theorem C4_omitted_key_yielded (items found : List Consumer.BlocksCarsPosition)
    (i : Consumer.BlocksCarsPosition)
    (hitems : ∀ x ∈ items, '#' ∉ x.blockmultihash.data)
    (hfound : ∀ f ∈ found, '#' ∉ f.blockmultihash.data)
    (hded : i ∈ (buildItemMap items).map Prod.snd)
    (homit : pairKey i ∉ found.map pairKey) :
    ∀ out, checkExists items (some found) = Except.ok out → i ∈ out := by
  intro out hout
  have hfilter : ((buildItemMap items).map Prod.snd).filter
      (fun x => decide (itemKey x ∉ found.map itemKey)) = out := by
    simpa [checkExists] using hout
  rw [← hfilter]
  refine List.mem_filter.mpr ⟨hded, decide_eq_true ?_⟩
  intro hmem
  rcases List.mem_map.mp hmem with ⟨f, hf, hkey⟩
  have hi : i ∈ items := by
    rcases List.mem_map.mp hded with ⟨e, he, hei⟩
    exact hei ▸ buildMapBy_val_mem itemKey items e he
  exact homit (List.mem_map.mpr
    ⟨f, hf, (itemKey_eq_iff (hfound f hf) (hitems i hi)).mp hkey⟩)

/-- Witness for amended C4: a candidate not mentioned by the response is
yielded. -/
theorem C4_omitted_key_yielded_witness :
    (⟨"h", "x", 1, 1⟩ : Consumer.BlocksCarsPosition) ∈
      ([⟨"h", "x", 1, 1⟩] : List Consumer.BlocksCarsPosition) :=
  C4_omitted_key_yielded [⟨"h", "x", 1, 1⟩] [⟨"g", "y", 0, 0⟩] ⟨"h", "x", 1, 1⟩
    (by decide) (by decide) (by decide) (by decide) [⟨"h", "x", 1, 1⟩] rfl

/-- Counterexample to C7 as stated: on a batch whose blockmultihash values
contain the separator character, the issued puts are not the batch
deduplicated by primary key (one of two distinct keys is dropped). -/
theorem C7_write_unprocessed_cex :
    writePuts [⟨"a#b", "c", 0, 0⟩, ⟨"a", "b#c", 0, 0⟩] ≠
      (specDedupByPrimaryKey [⟨"a#b", "c", 0, 0⟩, ⟨"a", "b#c", 0, 0⟩]).map
        fun i => (⟨i⟩ : WriteRequest) := by
  decide

/-- C7 amended: on batches in which no blockmultihash contains the
separator character, write issues one batched put over exactly the batch
deduplicated by primary key; write returns the store's reported unprocessed
list unchanged and without raising an error; and the write stage forwards
each unprocessed list to the handler exactly when it is non-empty. -/
theorem C7_write_unprocessed :
    (∀ b : List Consumer.BlocksCarsPosition,
        (∀ x ∈ b, '#' ∉ x.blockmultihash.data) →
        writePuts b = (specDedupByPrimaryKey b).map fun i => (⟨i⟩ : WriteRequest)) ∧
    (∀ (b : List Consumer.BlocksCarsPosition) (u : List WriteRequest),
        write b (some u) = u) ∧
    (∀ (writeResps : Nat → List WriteRequest → Option (List WriteRequest))
        (bs : List (List Consumer.BlocksCarsPosition)) (n : Nat),
        (writeStage writeResps bs n).2.2 =
          (unprocessedResults writeResps bs n).filter fun u => decide (u ≠ [])) := by
  refine ⟨?_, fun _ _ => rfl, ?_⟩
  · intro b hb
    rw [writePuts, buildItemMap_spec hb, List.map_map, specDedupByPrimaryKey,
      List.map_map]
    rfl
  · intro writeResps bs
    induction bs with
    | nil => intro n; rfl
    | cons b rest ih =>
      intro n
      simp only [writeStage, unprocessedResults, List.filter_cons]
      rw [ih (n + 1)]
      by_cases h : write b (writeResps n (writePuts b)) = []
      · simp [h]
      · have hl : (write b (writeResps n (writePuts b))).length > 0 :=
          List.length_pos.mpr h
        simp [h, hl]

/-- Witness for amended C7 on a one-record batch whose put the store
reports back as unprocessed. -/
theorem C7_write_unprocessed_witness :
    (writePuts [⟨"h", "x", 1, 1⟩] =
      (specDedupByPrimaryKey [⟨"h", "x", 1, 1⟩]).map fun i => (⟨i⟩ : WriteRequest)) ∧
    (write [⟨"h", "x", 1, 1⟩] (some [⟨⟨"h", "x", 1, 1⟩⟩]) = [⟨⟨"h", "x", 1, 1⟩⟩]) ∧
    ((writeStage (fun _ _ => some [⟨⟨"h", "x", 1, 1⟩⟩]) [[⟨"h", "x", 1, 1⟩]] 0).2.2 =
      (unprocessedResults (fun _ _ => some [⟨⟨"h", "x", 1, 1⟩⟩]) [[⟨"h", "x", 1, 1⟩]] 0).filter
        fun u => decide (u ≠ [])) :=
  ⟨C7_write_unprocessed.1 [⟨"h", "x", 1, 1⟩] (by decide),
   C7_write_unprocessed.2.1 [⟨"h", "x", 1, 1⟩] [⟨⟨"h", "x", 1, 1⟩⟩],
   C7_write_unprocessed.2.2 (fun _ _ => some [⟨⟨"h", "x", 1, 1⟩⟩]) [[⟨"h", "x", 1, 1⟩]] 0⟩

/-- C9: when the stored cursor requests a stop, or the global stop signal is
present at the first poll, the scanner invocation performs no page fetch, no
queue send, no checkpoint write and no self-invocation, and returns the
previously persisted progress together with the partition parameters. -/
theorem C9_stop_frame (env : ScanEnv) (tS sg fuel : Nat)
    (h : (getProgress env.stored).stop = true ∨ env.stopSignal 0 = true) :
    Scanner.handler env tS sg fuel =
      ([], ⟨tS, sg, (getProgress env.stored).recordCount,
        (getProgress env.stored).lastEvaluated, some (getProgress env.stored).stop⟩) := by
  by_cases hstop : (getProgress env.stored).stop
  · simp [Scanner.handler, hstop]
  · rcases h with h | h
    · exact absurd h hstop
    · simp [Scanner.handler, hstop, h]

/-- Witness for C9: with the global stop parameter present and no stored
progress, the invocation returns fresh progress and performs no effect. -/
theorem C9_stop_frame_witness :
    Scanner.handler ⟨none, fun _ => true, fun _ => ⟨["x"], some "q"⟩, fun _ => 0⟩ 1 0 3 =
      ([], ⟨1, 0, 0, none, some false⟩) :=
  C9_stop_frame ⟨none, fun _ => true, fun _ => ⟨["x"], some "q"⟩, fun _ => 0⟩ 1 0 3
    (Or.inr rfl)

/-- Every trace of the scan loop started at the n-th page is a sequence of
well-formed iteration segments for the pages from n on. -/
theorem scanLoop_segTrace (env : ScanEnv) (tS sg : Nat) :
    ∀ (fuel n : Nat) (cnt : Int) (last : Option String),
      SegTrace env n (scanLoop env tS sg fuel n cnt last).1 := by
  intro fuel
  induction fuel with
  | zero => intro n cnt last; exact SegTrace.nil n
  | succ fuel ih =>
    intro n cnt last
    by_cases h1 : (env.page n).lastEvaluatedKey.isNone
    · simp only [scanLoop, if_pos h1]
      exact SegTrace.cons n last _ [] rfl (SegTrace.nil (n + 1))
    · by_cases h2 : env.stopSignal (n + 1)
      · simp only [scanLoop, if_neg h1, if_pos h2]
        exact SegTrace.cons n last _ [] rfl (SegTrace.nil (n + 1))
      · by_cases h3 : env.msRemaining n < MIN_REMAINING_TIME_MS
        · simp only [scanLoop, if_neg h1, if_neg h2, if_pos h3]
          exact SegTrace.cons n last _ [Event.invoke] rfl (SegTrace.invokeOnly (n + 1))
        · simp only [scanLoop, if_neg h1, if_neg h2, if_neg h3]
          exact SegTrace.cons n last _ _ rfl (ih (n + 1) _ _)

/-- Along a segment trace, checkpoint writes and page fetches are equally
many. -/
theorem segTrace_store_count {env : ScanEnv} {m : Nat} {t : List Event}
    (h : SegTrace env m t) :
    t.countP isStoreEvent = t.countP isFetchEvent := by
  induction h with
  | nil n => rfl
  | invokeOnly n => rfl
  | cons n k p rest hp _ ih =>
    by_cases he : (env.page n).items.isEmpty
    · simp [he, List.countP_cons, isStoreEvent, isFetchEvent, ih]
    · simp [he, List.countP_cons, List.countP_append, isStoreEvent, isFetchEvent, ih]

/-- Along a segment trace for the pages from m on, everything before the
checkpoint write preceded by j earlier checkpoint writes ends with the
fetch of the (m+j)-th page followed by the dispatch of exactly that page's
records whenever that page was non-empty, and the checkpointed progress
carries that page's continuation key. -/
theorem segTrace_store_decomp {env : ScanEnv} {m : Nat} {t : List Event}
    (h : SegTrace env m t) :
    ∀ t₁ p t₂, t = t₁ ++ Event.store p :: t₂ →
      ∃ pre k, t₁ = pre ++ Event.fetch k ::
          (if (env.page (m + t₁.countP isStoreEvent)).items.isEmpty then []
           else [Event.send (env.page (m + t₁.countP isStoreEvent)).items]) ∧
        p.lastEvaluated = (env.page (m + t₁.countP isStoreEvent)).lastEvaluatedKey := by
  induction h with
  | nil n =>
    intro t₁ p t₂ ht
    exact absurd ht (by simp)
  | invokeOnly n =>
    intro t₁ p t₂ ht
    cases t₁ with
    | nil => simp at ht
    | cons e t₁' =>
      simp only [List.cons_append, List.cons.injEq] at ht
      exact absurd ht.2 (by simp)
  | cons n k p' rest hp hrest ih =>
    intro t₁ p t₂ ht
    by_cases he : (env.page n).items.isEmpty
    · rw [if_pos he] at ht
      cases t₁ with
      | nil => simp at ht
      | cons e t₁' =>
        simp only [List.nil_append, List.cons_append, List.cons.injEq] at ht
        obtain ⟨he1, ht'⟩ := ht
        subst he1
        cases t₁' with
        | nil =>
          simp only [List.nil_append, List.cons.injEq, Event.store.injEq] at ht'
          obtain ⟨hpp, -⟩ := ht'
          subst hpp
          have hc : ([Event.fetch k] : List Event).countP isStoreEvent = 0 := rfl
          refine ⟨[], k, ?_, ?_⟩
          · rw [hc, Nat.add_zero, if_pos he]
            rfl
          · rw [hc, Nat.add_zero]
            exact hp
        | cons f t₁'' =>
          simp only [List.cons_append, List.cons.injEq] at ht'
          obtain ⟨he2, ht''⟩ := ht'
          subst he2
          obtain ⟨pre, k', hpre, hlast⟩ := ih t₁'' p t₂ ht''
          have hidx : n + (Event.fetch k :: Event.store p' :: t₁'').countP isStoreEvent
              = n + 1 + t₁''.countP isStoreEvent := by
            simp [isStoreEvent, List.countP_cons]
            omega
          refine ⟨Event.fetch k :: Event.store p' :: pre, k', ?_, ?_⟩
          · rw [hidx]
            simp only [List.cons_append]
            exact congrArg (List.cons (Event.fetch k))
              (congrArg (List.cons (Event.store p')) hpre)
          · rw [hidx]
            exact hlast
    · rw [if_neg he] at ht
      cases t₁ with
      | nil => simp at ht
      | cons e t₁' =>
        simp only [List.cons_append, List.singleton_append, List.nil_append,
          List.cons.injEq] at ht
        obtain ⟨he1, ht'⟩ := ht
        subst he1
        cases t₁' with
        | nil => simp at ht'
        | cons f t₁'' =>
          simp only [List.cons_append, List.nil_append, List.cons.injEq] at ht'
          obtain ⟨he2, ht''⟩ := ht'
          subst he2
          cases t₁'' with
          | nil =>
            simp only [List.nil_append, List.cons.injEq, Event.store.injEq] at ht''
            obtain ⟨hpp, -⟩ := ht''
            subst hpp
            have hc : ([Event.fetch k, Event.send (env.page n).items] :
                List Event).countP isStoreEvent = 0 := rfl
            refine ⟨[], k, ?_, ?_⟩
            · rw [hc, Nat.add_zero, if_neg he]
              rfl
            · rw [hc, Nat.add_zero]
              exact hp
          | cons g t₁''' =>
            simp only [List.cons_append, List.nil_append, List.cons.injEq] at ht''
            obtain ⟨he3, ht'''⟩ := ht''
            subst he3
            obtain ⟨pre, k', hpre, hlast⟩ := ih t₁''' p t₂ ht'''
            have hidx : n + (Event.fetch k :: Event.send (env.page n).items ::
                Event.store p' :: t₁''').countP isStoreEvent
                = n + 1 + t₁'''.countP isStoreEvent := by
              simp [isStoreEvent, List.countP_cons]
              omega
            refine ⟨Event.fetch k :: Event.send (env.page n).items ::
              Event.store p' :: pre, k', ?_, ?_⟩
            · rw [hidx]
              simp only [List.cons_append]
              exact congrArg (List.cons (Event.fetch k))
                (congrArg (List.cons (Event.send (env.page n).items))
                  (congrArg (List.cons (Event.store p')) hpre))
            · rw [hidx]
              exact hlast

/-- The full scanner trace is a segment trace for the pages from 0 on: the
abort paths emit nothing and the loop emits segments. -/
theorem handler_segTrace (env : ScanEnv) (tS sg fuel : Nat) :
    SegTrace env 0 (Scanner.handler env tS sg fuel).1 := by
  by_cases hstop : (getProgress env.stored).stop
  · simp only [Scanner.handler, if_pos hstop]
    exact SegTrace.nil 0
  · by_cases hsig : env.stopSignal 0
    · simp only [Scanner.handler, if_neg hstop, if_pos hsig]
      exact SegTrace.nil 0
    · simp only [Scanner.handler, if_neg hstop, if_neg hsig]
      exact scanLoop_segTrace env tS sg fuel 0 _ _

/-- C8: in every scanner invocation the checkpoint is written exactly once
per page fetch, including empty and final pages; and the checkpoint write
preceded by j earlier checkpoint writes is immediately preceded by the
fetch of the j-th page and, whenever that page is non-empty, by the
dispatch of exactly that page's records, while the checkpointed cursor
carries that page's continuation key — so no checkpoint records progress
for an undispatched page. -/
theorem C8_checkpoint_per_page (env : ScanEnv) (tS sg fuel : Nat) :
    ((Scanner.handler env tS sg fuel).1.countP isStoreEvent =
      (Scanner.handler env tS sg fuel).1.countP isFetchEvent) ∧
    ∀ t₁ p t₂, (Scanner.handler env tS sg fuel).1 = t₁ ++ Event.store p :: t₂ →
      ∃ pre k, t₁ = pre ++ Event.fetch k ::
          (if (env.page (t₁.countP isStoreEvent)).items.isEmpty then []
           else [Event.send (env.page (t₁.countP isStoreEvent)).items]) ∧
        p.lastEvaluated = (env.page (t₁.countP isStoreEvent)).lastEvaluatedKey := by
  refine ⟨segTrace_store_count (handler_segTrace env tS sg fuel), ?_⟩
  intro t₁ p t₂ ht
  have h := segTrace_store_decomp (handler_segTrace env tS sg fuel) t₁ p t₂ ht
  simpa using h

/-- Witness for C8 on a one-page run whose single non-empty page is sent
and then checkpointed with that page's (absent) continuation key. -/
theorem C8_checkpoint_per_page_witness :
    (([Event.fetch none, Event.send ["x"], Event.store ⟨1, none, true⟩] :
        List Event).countP isStoreEvent =
      ([Event.fetch none, Event.send ["x"], Event.store ⟨1, none, true⟩] :
        List Event).countP isFetchEvent) ∧
    ∃ pre k, ([Event.fetch none, Event.send ["x"]] : List Event) =
        pre ++ Event.fetch k ::
          (if (["x"] : List String).isEmpty then [] else [Event.send ["x"]]) ∧
      (⟨1, none, true⟩ : Progress).lastEvaluated = (none : Option String) :=
  ⟨(C8_checkpoint_per_page ⟨none, fun _ => false, fun _ => ⟨["x"], none⟩, fun _ => 0⟩
      1 0 1).1,
   (C8_checkpoint_per_page ⟨none, fun _ => false, fun _ => ⟨["x"], none⟩, fun _ => 0⟩
      1 0 1).2 [Event.fetch none, Event.send ["x"]] ⟨1, none, true⟩ [] rfl⟩
